import Mathlib

/-!
Verification of the diff reconciliation engine of
packages/api-client/src/views/Request/libs/live-sync.ts.

The embedding models JavaScript values as the inductive type Val,
microdiff entries as Difference, and zod schemas as the inductive type
Schema.  Functions from the source file are transcribed one to one;
fallible JavaScript code (property access on undefined, throwing parses,
destructuring of empty arrays) is embedded with Except.  The external
microdiff function is passed as an explicit parameter md wherever the
source calls it.
-/

namespace LiveSync

/-- A JavaScript value as produced by parsing an OpenAPI document:
strings, numbers, booleans, null, undefined, arrays and objects. -/
inductive Val where
  | undefined
  | null
  | bool (b : Bool)
  | num (n : Int)
  | str (s : String)
  | arr (elems : List Val)
  | obj (fields : List (String × Val))

mutual

/-- Structural boolean equality of JavaScript values. -/
def valBeq : Val → Val → Bool
  | .undefined, .undefined => true
  | .null, .null => true
  | .bool a, .bool b => a == b
  | .num a, .num b => a == b
  | .str a, .str b => a == b
  | .arr a, .arr b => valListBeq a b
  | .obj a, .obj b => valFieldsBeq a b
  | _, _ => false
termination_by v _ => sizeOf v

/-- Elementwise equality of value lists. -/
def valListBeq : List Val → List Val → Bool
  | [], [] => true
  | x :: xs, y :: ys => valBeq x y && valListBeq xs ys
  | _, _ => false
termination_by l _ => sizeOf l

/-- Entrywise equality of object field lists. -/
def valFieldsBeq : List (String × Val) → List (String × Val) → Bool
  | [], [] => true
  | (k, x) :: xs, (k2, y) :: ys => k == k2 && valBeq x y && valFieldsBeq xs ys
  | _, _ => false
termination_by l _ => sizeOf l

end

instance : BEq Val := ⟨valBeq⟩

/-- One segment of a microdiff path: a string key or an array index.
The undefined constructor models the JavaScript undefined that appears when
destructuring reads past the end of a path array. -/
inductive PathSeg where
  | key (s : String)
  | idx (n : Nat)
  | undefined
deriving DecidableEq

/-- The kind of a microdiff entry. -/
inductive DiffType where
  | create
  | remove
  | change
deriving DecidableEq

/-- A microdiff Difference entry.  CREATE has oldValue undef, REMOVE has
value undef, CHANGE carries both. -/
structure Difference where
  type : DiffType
  path : List PathSeg
  oldValue : Val := .undefined
  value : Val := .undefined

/-- JavaScript falsiness of a value. -/
def jsFalsy : Val → Bool
  | .undefined => true
  | .null => true
  | .bool b => !b
  | .num n => n == 0
  | .str s => s == ""
  | _ => false

/-- JavaScript truthiness of a path segment, as tested by conditions
such as currMethod and nextMethod in the source. -/
def truthySeg : PathSeg → Bool
  | .key s => !(s == "")
  | .idx n => !(n == 0)
  | .undefined => false

/-- A path segment used as a value (the rename CHANGE entries store the
old and new keys as values). -/
def segToVal : PathSeg → Val
  | .key s => .str s
  | .idx n => .num n
  | .undefined => .undefined

/-- A path segment as rendered by JavaScript Array.prototype.join, where
undefined renders as the empty string. -/
def segToJoin : PathSeg → String
  | .key s => s
  | .idx n => toString n
  | .undefined => ""

/-- A path segment used as a JavaScript property key, where numbers are
converted to their decimal string and undefined to the string
undefined. -/
def segToKeyString : PathSeg → String
  | .key s => s
  | .idx n => toString n
  | .undefined => "undefined"

/-- path.join with a dot separator, as used by parseDiff. -/
def joinPath (p : List PathSeg) : String :=
  String.intercalate "." (p.map segToJoin)

/-- First field of an object value with the given key. -/
def lookupVal (fields : List (String × Val)) (k : String) : Option Val :=
  (fields.find? (fun f => f.1 == k)).map (fun f => f.2)

/-- Set a key in an object field list (JavaScript property assignment:
overwrite in place if present, append otherwise). -/
def setKey (fields : List (String × Val)) (k : String) (v : Val) :
    List (String × Val) :=
  if fields.any (fun f => f.1 == k) then
    fields.map (fun f => if f.1 == k then (k, v) else f)
  else fields ++ [(k, v)]

/-- Delete a key from an object field list (the JavaScript delete
operator). -/
def delKey (fields : List (String × Val)) (k : String) :
    List (String × Val) :=
  fields.filter (fun f => !(f.1 == k))

/-- Object.keys of a value: field names for objects, empty for
everything else relevant here. -/
def objKeys : Val → List String
  | .obj fields => fields.map (fun f => f.1)
  | _ => []

/-- A zod schema, as a closed set of the combinators the source file
inspects: primitives, literals, ZodAny, ZodOptional, ZodDefault,
ZodObject, ZodArray, ZodRecord, ZodUnion and ZodDiscriminatedUnion. -/
inductive Schema where
  | string
  | number
  | boolean
  | literal (v : Val)
  | any
  | optional (inner : Schema)
  | zdefault (dval : Val) (inner : Schema)
  | obj (fields : List (String × Schema))
  | array (elem : Schema)
  | record (value : Schema)
  | union (options : List Schema)
  | dunion (discriminator : String) (options : List Schema)

/-- unwrapSchema from the source: strip ZodOptional and ZodDefault
wrappers recursively. -/
def unwrapSchema : Schema → Schema
  | .optional s => unwrapSchema s
  | .zdefault _ s => unwrapSchema s
  | s => s

/-- Whether a schema is an optional or default wrapper. -/
def isWrapper : Schema → Bool
  | .optional _ => true
  | .zdefault _ _ => true
  | _ => false

/-- First schema field with the given key, modelling key in shape and
shape bracket access on a ZodObject. -/
def lookupFieldS (fields : List (String × Schema)) (k : String) :
    Option Schema :=
  (fields.find? (fun f => f.1 == k)).map (fun f => f.2)

mutual

/-- Modelled from the spec: the non-throwing parse primitive behind
schemaModel from the oas-utils helpers, which are not included in the
sources.  Per the spec it validates a value against a shape and reports
success or failure; we model it as a structural validator (objects may
carry extra keys, optional and default wrappers accept undefined). -/
def zvalid : Schema → Val → Bool
  | .string, v => match v with | .str _ => true | _ => false
  | .number, v => match v with | .num _ => true | _ => false
  | .boolean, v => match v with | .bool _ => true | _ => false
  | .literal lv, v => lv == v
  | .any, _ => true
  | .optional s, v => match v with | .undefined => true | _ => zvalid s v
  | .zdefault _ s, v => match v with | .undefined => true | _ => zvalid s v
  | .obj fl, v => match v with | .obj fv => zvalidFields fl fv | _ => false
  | .array s, v => match v with | .arr xs => zvalidElems s xs | _ => false
  | .record s, v => match v with | .obj fv => zvalidEntries s fv | _ => false
  | .union opts, v => zvalidUnion opts v
  | .dunion _ opts, v => zvalidUnion opts v
termination_by s _ => (sizeOf s, 0)

/-- Each declared field of an object schema validates the corresponding
object property (undefined when absent). -/
def zvalidFields : List (String × Schema) → List (String × Val) → Bool
  | [], _ => true
  | (k, s) :: rest, fv =>
    zvalid s ((lookupVal fv k).getD .undefined) && zvalidFields rest fv
termination_by fl _ => (sizeOf fl, 0)

/-- Every element of an array validates the element schema. -/
def zvalidElems : Schema → List Val → Bool
  | _, [] => true
  | s, x :: xs => zvalid s x && zvalidElems s xs
termination_by s l => (sizeOf s, sizeOf l + 1)

/-- Every property value of a record validates the value schema. -/
def zvalidEntries : Schema → List (String × Val) → Bool
  | _, [] => true
  | s, (_, x) :: xs => zvalid s x && zvalidEntries s xs
termination_by s l => (sizeOf s, sizeOf l + 1)

/-- A union validates if some option validates. -/
def zvalidUnion : List Schema → Val → Bool
  | [], _ => false
  | o :: rest, v => zvalid o v || zvalidUnion rest v
termination_by opts _ => (sizeOf opts, 0)

end

/-- Modelled from the spec: schemaModel with throws set to false, the
non-throwing parse returning success with the value or failure. -/
def schemaModel (data : Val) (schema : Schema) : Option Val :=
  if zvalid schema data then some data else none

/-- Modelled from the spec: the throwing zod parse method, as invoked by
securitySchemeSchema.parse and serverSchema.array().parse. -/
def zparseThrow (schema : Schema) (data : Val) : Except String Val :=
  if zvalid schema data then .ok data else .error "ZodError"

/-- The instanceof ZodAny test. -/
def isZodAny : Schema → Bool
  | .any => true
  | _ => false

/-- One descent step of traverseZodSchema on an already unwrapped
schema: an object descends through a present string field, an array
descends through an integer index into its element, or through a string
key into a field of an object element, a record descends into its value
schema for any segment; every other combination means the path does not
exist. -/
def traverseStep : Schema → PathSeg → Option Schema
  | .obj fields, .key ks => lookupFieldS fields ks
  | .array elem, .idx _ => some elem
  | .array elem, .key ks =>
    match elem with
    | .obj fields => lookupFieldS fields ks
    | _ => none
  | .record valueSchema, _ => some valueSchema
  | _, _ => none

/-- traverseZodSchema from the source: walks a zod schema along a diff
path and returns the schema at the end of the path, or none when the
path does not exist.  Each step first unwraps optional and default
wrappers, stops successfully at ZodAny for any remaining path, performs
one descent step, and unwraps once more after the step. -/
def traverseZodSchema : Schema → List PathSeg → Option Schema
  | s, [] => some s
  | s, k :: rest =>
    let cur := unwrapSchema s
    if isZodAny cur then some cur
    else
      match traverseStep cur k with
      | some nxt => traverseZodSchema (unwrapSchema nxt) rest
      | none => none

/-- Result record of parseDiff: the dotted path, the dotted path without
its last segment, and the parsed value (undefined for a REMOVE). -/
structure ParsedDiff where
  path : String
  pathMinusOne : String
  value : Val

/-- parseDiff from the source: resolve the diff path against the schema
with traverseZodSchema, join the path and the path without its last
item, return early with an undefined value for a REMOVE, otherwise
validate the diff value with the non-throwing schemaModel and apply the
JavaScript falsiness check the source performs on the parse result. -/
def parseDiff (schema : Schema) (d : Difference) : Option ParsedDiff :=
  match traverseZodSchema schema d.path with
  | none => none
  | some parsedSchema =>
    let path := joinPath d.path
    let pathMinusOne := joinPath d.path.dropLast
    if d.type = .remove then
      some ⟨path, pathMinusOne, .undefined⟩
    else
      match schemaModel d.value parsedSchema with
      | none => none
      | some w => if jsFalsy w then none else some ⟨path, pathMinusOne, w⟩

/-- findResource from the source: scan the uid list in order, look each
uid up in the table and call the condition on the lookup result exactly
as the JavaScript does, returning the lookup result on the first true.
A condition is a JavaScript function and receives the raw lookup result,
which is undefined (none) for a missing key; a condition that
dereferences its argument throws there, which the Except models. -/
def findResource {T : Type} (arr : List String)
    (resources : String → Option T)
    (condition : Option T → Except String Bool) :
    Except String (Option T) :=
  match arr with
  | [] => .ok none
  | uid :: rest =>
    match condition (resources uid) with
    | .error e => .error e
    | .ok true => .ok (resources uid)
    | .ok false => findResource rest resources condition

/-- Lift a predicate on entities to a condition in the shape every call
site of findResource in the source uses: the predicate body reads a
property of its argument, so applying it to undefined throws a
TypeError. -/
def derefCond {T : Type} (p : T → Bool) : Option T → Except String Bool
  | some r => .ok (p r)
  | none => .error "TypeError: cannot read properties of undefined"

/-- The Resource Finder as the spec describes it: scan the keys in
order and return the first entity from the table satisfying the
predicate, not-found when the list is empty, when no entity satisfies
it, or when a key is missing from the table. -/
def findResourceSpec {T : Type} (arr : List String)
    (resources : String → Option T) (p : T → Bool) : Option T :=
  match arr with
  | [] => none
  | uid :: rest =>
    match resources uid with
    | some r => if p r then some r else findResourceSpec rest resources p
    | none => none

/-- Array.prototype.filter over uids with a predicate that dereferences
the table entry, as in collection.requests.filter in the source; a
missing entry makes the JavaScript callback throw. -/
def filterDeref {T : Type} (arr : List String)
    (resources : String → Option T) (p : T → Bool) :
    Except String (List String) :=
  match arr with
  | [] => .ok []
  | uid :: rest =>
    match resources uid with
    | none => .error "TypeError: cannot read properties of undefined"
    | some r => do
      let tl ← filterDeref rest resources p
      pure (if p r then uid :: tl else tl)

/-- The variant test of narrowUnionSchema: an object option whose field
at the discriminator key is a zod literal whose value strictly equals
the discriminator value. -/
def variantMatches (o : Schema) (k : String) (v : Val) : Bool :=
  match o with
  | .obj fields =>
    match lookupFieldS fields k with
    | some (.literal lv) => lv == v
    | _ => false
  | _ => false

/-- The option scan inside narrowUnionSchema, in declaration order. -/
def findVariant : List Schema → String → Val → Option Schema
  | [], _, _ => none
  | o :: rest, k, v =>
    if variantMatches o k v then some o else findVariant rest k v

/-- narrowUnionSchema from the source: unwrap the schema and, when it is
a ZodUnion or ZodDiscriminatedUnion, return the first option that is an
object whose discriminator field is a literal equal to the value;
otherwise null. -/
def narrowUnionSchema (schema : Schema) (k : String) (v : Val) :
    Option Schema :=
  match unwrapSchema schema with
  | .union opts => findVariant opts k v
  | .dunion _ opts => findVariant opts k v
  | _ => none

/-- Path prefixing as performed in place on diff entries by
combineRenameDiffs when called with a non-empty prefix. -/
def prefixPath (pfx : List PathSeg) (d : Difference) : Difference :=
  { d with path := pfx ++ d.path }

/-- Whether the last segment of a path is an array index, the typeof
check guarding the CREATE and REMOVE simplification branches. -/
def isNumLast (p : List PathSeg) : Bool :=
  match p.getLast? with
  | some (.idx _) => true
  | _ => false

/-- The non-rename simplification of combineRenameDiffs: a CREATE or
REMOVE whose path is longer than three segments and does not end in an
array index is rewritten as a CHANGE with the missing side undefined;
every other entry passes through unchanged. -/
def simplifyEntry (c : Difference) : Difference :=
  if c.type = .create ∧ c.path.length > 3 ∧ ¬isNumLast c.path then
    { c with type := .change, oldValue := .undefined }
  else if c.type = .remove ∧ c.path.length > 3 ∧ ¬isNumLast c.path then
    { c with type := .change, value := .undefined }
  else c

/-- The one or two CHANGE entries emitted for a REMOVE and CREATE pair:
a path rename when the second path segments differ, and a method rename
when both third segments are truthy and differ. -/
def renameChanges (c n : Difference) : List Difference :=
  let currPath := (c.path.get? 1).getD .undefined
  let nextPath := (n.path.get? 1).getD .undefined
  let currMethod := (c.path.get? 2).getD .undefined
  let nextMethod := (n.path.get? 2).getD .undefined
  (if currPath ≠ nextPath then
    [{ type := .change, path := [.key "paths", .key "path"],
       oldValue := segToVal currPath, value := segToVal nextPath }]
   else [])
  ++
  (if truthySeg currMethod ∧ truthySeg nextMethod ∧ currMethod ≠ nextMethod
   then
    [{ type := .change, path := [.key "paths", nextPath, .key "method"],
       oldValue := segToVal currMethod, value := segToVal nextMethod }]
   else [])

/-- The loop of combineRenameDiffs for a non-empty path prefix: every
entry (current, and next when present) has the prefix prepended to its
path in place, every REMOVE followed by a CREATE is combined into rename
CHANGE entries with the pair consumed, and the recursive body diffing is
not performed because the prefix is non-empty.  An entry that served as
next in one iteration and was not consumed is prefixed a second time
when it becomes current, exactly as the in-place mutation in the source
does.  Returns the emitted entries together with the final state of the
mutated input array. -/
def combineNestedGo (pfx : List PathSeg) :
    List Difference → List Difference × List Difference
  | [] => ([], [])
  | [c] =>
    let c1 := prefixPath pfx c
    ([simplifyEntry c1], [c1])
  | c :: n :: rest =>
    let c1 := prefixPath pfx c
    let n1 := prefixPath pfx n
    if c1.type = .remove ∧ n1.type = .create then
      (renameChanges c1 n1 ++ (combineNestedGo pfx rest).1,
       c1 :: n1 :: (combineNestedGo pfx rest).2)
    else
      (simplifyEntry c1 :: (combineNestedGo pfx (n1 :: rest)).1,
       c1 :: (combineNestedGo pfx (n1 :: rest)).2)
termination_by l => l.length
decreasing_by all_goals simp <;> omega

/-- The loop of combineRenameDiffs for the empty (top-level) prefix:
paths are not mutated, entries whose first path segment is not the
string paths pass through untouched, a REMOVE followed by a CREATE is
combined into rename CHANGE entries followed by the recursively combined
structural diff of the old and new bodies, and the remaining entries are
simplified as in the nested pass.  Returns the emitted entries together
with the final state of the input array. -/
def combineTopGo (md : Val → Val → List Difference) :
    List Difference → List Difference × List Difference
  | [] => ([], [])
  | [c] =>
    if c.path.head? ≠ some (.key "paths") then ([c], [c])
    else ([simplifyEntry c], [c])
  | c :: n :: rest =>
    if c.path.head? ≠ some (.key "paths") then
      (c :: (combineTopGo md (n :: rest)).1, c :: (combineTopGo md (n :: rest)).2)
    else if c.type = .remove ∧ n.type = .create then
      let nextPath := (n.path.get? 1).getD .undefined
      let currMethod := (c.path.get? 2).getD .undefined
      let nextMethod := (n.path.get? 2).getD .undefined
      let nestedPfx := [PathSeg.key "paths", nextPath] ++
        (if truthySeg currMethod ∧ truthySeg nextMethod ∧
            currMethod ≠ nextMethod then [nextMethod] else [])
      let inner := md c.oldValue n.value
      let innerCombined :=
        if inner.isEmpty then [] else (combineNestedGo nestedPfx inner).1
      (renameChanges c n ++ innerCombined ++ (combineTopGo md rest).1,
       c :: n :: (combineTopGo md rest).2)
    else
      (simplifyEntry c :: (combineTopGo md (n :: rest)).1,
       c :: (combineTopGo md (n :: rest)).2)
termination_by l => l.length
decreasing_by all_goals simp <;> omega

/-- combineRenameDiffs from the source, parameterised by the external
microdiff function md.  The returned list is the combined diff. -/
def combineRenameDiffs (md : Val → Val → List Difference)
    (diff : List Difference) (pfx : List PathSeg) : List Difference :=
  if pfx.isEmpty then (combineTopGo md diff).1
  else (combineNestedGo pfx diff).1

/-- The final state of the diff array passed to combineRenameDiffs,
capturing the in-place path mutation the source performs on its input
when the prefix is non-empty. -/
def combineRenameDiffsFinal (md : Val → Val → List Difference)
    (diff : List Difference) (pfx : List PathSeg) : List Difference :=
  if pfx.isEmpty then (combineTopGo md diff).2
  else (combineNestedGo pfx diff).2

/-- The key rename CHANGE entry of a REMOVE and CREATE pair, emitted
when the second path segments (the path keys) differ. -/
def renameKeyPart (rm cr : Difference) : List Difference :=
  if (rm.path.get? 1).getD .undefined ≠ (cr.path.get? 1).getD .undefined then
    [{ type := .change, path := [.key "paths", .key "path"],
       oldValue := segToVal ((rm.path.get? 1).getD .undefined),
       value := segToVal ((cr.path.get? 1).getD .undefined) }]
  else []

/-- The method rename CHANGE entry of a REMOVE and CREATE pair, emitted
when both third path segments (the method sub keys) are truthy and
differ. -/
def renameMethodPart (rm cr : Difference) : List Difference :=
  if truthySeg ((rm.path.get? 2).getD .undefined) ∧
      truthySeg ((cr.path.get? 2).getD .undefined) ∧
      (rm.path.get? 2).getD .undefined ≠ (cr.path.get? 2).getD .undefined then
    [{ type := .change,
       path := [.key "paths", (cr.path.get? 1).getD .undefined, .key "method"],
       oldValue := segToVal ((rm.path.get? 2).getD .undefined),
       value := segToVal ((cr.path.get? 2).getD .undefined) }]
  else []

/-- The recursion prefix for the body diff of a rename pair: the paths
section and the new path key, extended with the new method sub key when
a method rename was emitted. -/
def renameNestedPfx (rm cr : Difference) : List PathSeg :=
  [.key "paths", (cr.path.get? 1).getD .undefined] ++
    (if truthySeg ((rm.path.get? 2).getD .undefined) ∧
        truthySeg ((cr.path.get? 2).getD .undefined) ∧
        (rm.path.get? 2).getD .undefined ≠ (cr.path.get? 2).getD .undefined then
      [(cr.path.get? 2).getD .undefined]
    else [])

/-- The recursively combined body diff appended after the rename CHANGE
entries at the outermost level: empty when the structural diff of the
old and new bodies is empty, otherwise that diff combined under the
extended prefix. -/
def renameInnerPart (md : Val → Val → List Difference)
    (rm cr : Difference) : List Difference :=
  if (md rm.oldValue cr.value).isEmpty then []
  else combineRenameDiffs md (md rm.oldValue cr.value)
    (renameNestedPfx rm cr)

/-- A collection snapshot: its uid and the ordered uid lists of its
owned requests, servers and security schemes. -/
structure Collection where
  uid : String
  requests : List String
  servers : List String
  securitySchemes : List String

/-- A server entity snapshot; the builder only reads its presence. -/
structure Server where
  uid : String

/-- A request entity snapshot: uid, path, method and the remaining
properties as an object field list. -/
structure Request where
  uid : String
  path : String
  method : String
  fields : List (String × Val)

/-- An OAuth2 flow of a security scheme: its type discriminator and its
scopes map. -/
structure OAuthFlow where
  type : String
  scopes : List (String × Val)

/-- A security scheme entity snapshot: uid, human readable name key,
type discriminator and the optional flow object. -/
structure SecurityScheme where
  uid : String
  nameKey : String
  type : String
  flow : Option OAuthFlow

/-- A request entity as a JavaScript object, for nested value lookup. -/
def reqVal (r : Request) : Val :=
  .obj (("uid", .str r.uid) :: ("path", .str r.path) ::
    ("method", .str r.method) :: r.fields)

/-- Modelled from the spec: getNestedValue from the object-utils
package, which is not included in the sources; walks a dotted path
through objects and arrays, yielding undefined for a missing step. -/
def getNestedValue (v : Val) (dotted : String) : Val :=
  (dotted.splitOn ".").foldl
    (fun acc k =>
      match acc with
      | .obj fields => (lookupVal fields k).getD .undefined
      | .arr xs =>
        match k.toNat? with
        | some i => (xs.get? i).getD .undefined
        | none => .undefined
      | _ => .undefined)
    v

/-- JavaScript property access as used on parsed document values: an
object yields the property or undefined, null and undefined throw a
TypeError, any other primitive yields undefined. -/
def jsGetE (v : Val) (k : String) : Except String Val :=
  match v with
  | .undefined => .error "TypeError: cannot read properties of undefined"
  | .null => .error "TypeError: cannot read properties of null"
  | .obj fields => .ok ((lookupVal fields k).getD .undefined)
  | _ => .ok .undefined

/-- The nullish coalescing operator. -/
def nullish (v dflt : Val) : Val :=
  match v with
  | .undefined => dflt
  | .null => dflt
  | _ => v

/-- Object.entries: field pairs of an object, index and element pairs of
an array, nothing for other primitives, a TypeError for null and
undefined. -/
def jsEntries (v : Val) : Except String (List (String × Val)) :=
  match v with
  | .obj fields => .ok fields
  | .arr xs => .ok ((xs.enum.map (fun p => (toString p.1, p.2))))
  | .undefined => .error "TypeError: cannot convert undefined to object"
  | .null => .error "TypeError: cannot convert null to object"
  | _ => .ok []

/-- The JavaScript array spread: arrays spread to their elements,
strings to their characters, anything else is not iterable and throws. -/
def spreadArr (v : Val) : Except String (List Val) :=
  match v with
  | .arr xs => .ok xs
  | .str s => .ok (s.toList.map (fun ch => .str (String.singleton ch)))
  | _ => .error "TypeError: value is not iterable"

/-- Modelled from the spec: the isHTTPMethod helper from the
HttpMethod component, which is not included in the sources; tests
whether a value is a recognised HTTP verb. -/
def isHTTPMethod : Val → Bool
  | .str s =>
    s ∈ ["get", "post", "put", "delete", "patch", "head", "options",
      "trace", "connect"]
  | _ => false

/-- Modelled from the spec: serverSchema from the oas-utils entities,
which are not included in the sources; a server has a url, an optional
description and an optional variables map, plus a defaulted uid. -/
def serverSchema : Schema :=
  .obj [("uid", .zdefault (.str "") .string), ("url", .string),
    ("description", .optional .string),
    ("variables", .optional (.record .any))]

/-- Modelled from the spec: requestSchema from the oas-utils entities,
which are not included in the sources; a request has a defaulted uid,
path and method strings, optional summary and description, and
defaulted parameters, servers, security and tags collections. -/
def requestSchema : Schema :=
  .obj [("uid", .zdefault (.str "") .string), ("path", .string),
    ("method", .string), ("summary", .optional .string),
    ("description", .optional .string),
    ("parameters", .zdefault (.arr []) (.array .any)),
    ("servers", .zdefault (.arr []) (.array .any)),
    ("security", .optional (.array .any)),
    ("tags", .optional (.array .string))]

/-- Modelled from the spec: oasOauthFlowSchema from the oas-utils
entities, which are not included in the sources; a union of flow
variants discriminated by a literal type field, each carrying a scopes
record. -/
def oasOauthFlowSchema : Schema :=
  .union
    [.obj [("type", .literal (.str "implicit")),
      ("authorizationUrl", .string),
      ("scopes", .zdefault (.obj []) (.record .string))],
     .obj [("type", .literal (.str "password")), ("tokenUrl", .string),
      ("scopes", .zdefault (.obj []) (.record .string))],
     .obj [("type", .literal (.str "clientCredentials")),
      ("tokenUrl", .string),
      ("scopes", .zdefault (.obj []) (.record .string))],
     .obj [("type", .literal (.str "authorizationCode")),
      ("authorizationUrl", .string), ("tokenUrl", .string),
      ("scopes", .zdefault (.obj []) (.record .string))]]

/-- Modelled from the spec: securitySchemeSchema from the oas-utils
entities, which are not included in the sources; a union of scheme
variants discriminated by a literal type field. -/
def securitySchemeSchema : Schema :=
  .union
    [.obj [("type", .literal (.str "apiKey")),
      ("uid", .zdefault (.str "") .string),
      ("nameKey", .zdefault (.str "") .string),
      ("name", .zdefault (.str "") .string),
      ("in", .zdefault (.str "header") .string)],
     .obj [("type", .literal (.str "http")),
      ("uid", .zdefault (.str "") .string),
      ("nameKey", .zdefault (.str "") .string),
      ("scheme", .zdefault (.str "bearer") .string)],
     .obj [("type", .literal (.str "oauth2")),
      ("uid", .zdefault (.str "") .string),
      ("nameKey", .zdefault (.str "") .string),
      ("flow", .zdefault (.obj []) oasOauthFlowSchema)],
     .obj [("type", .literal (.str "openIdConnect")),
      ("uid", .zdefault (.str "") .string),
      ("nameKey", .zdefault (.str "") .string),
      ("openIdConnectUrl", .zdefault (.str "") .string)]]

/-- A mutation command emitted by the server payload builder. -/
inductive ServerCmd where
  | edit (uid : String) (path : String) (value : Val)
  | del (uid : String) (parentUid : String)
  | add (server : Val) (parentUid : String)

/-- A mutation command emitted by the request payload builder. -/
inductive RequestCmd where
  | edit (uid : String) (path : String) (value : Val)
  | add (request : Val) (parentUid : String)
  | del (request : Request) (parentUid : String)

/-- A mutation command emitted by the security scheme payload builder. -/
inductive SchemeCmd where
  | edit (uid : String) (path : String) (value : Val)
  | del (uid : String)
  | add (scheme : Val) (parentUid : String)

/-- Indexing an array of uids with a path segment, as
collection.servers bracket index does; a non-numeric segment yields
undefined. -/
def lookupIdx (uids : List String) (seg : PathSeg) : Option String :=
  match seg with
  | .idx n => uids.get? n
  | _ => none

/-- diffToServerPayload from the source.  With trailing path segments it
resolves the server by the collection server list at the index, parses
the remaining path against serverSchema, and replaces the parsed value
by an empty object when the entry is a REMOVE whose last segment is
variables; without trailing segments a REMOVE deletes the server at the
index when the uid is truthy and a CREATE validates the value as a full
server and adds it. -/
def diffToServerPayload (d : Difference) (collection : Collection)
    (servers : String → Option Server) : Option ServerCmd :=
  let index := (d.path.get? 1).getD .undefined
  let keys := d.path.drop 2
  if keys ≠ [] then
    match lookupIdx collection.servers index with
    | none => none
    | some serverUid =>
      match servers serverUid, parseDiff serverSchema { d with path := keys }
      with
      | some _, some parsed =>
        let removeVariables :=
          d.type = .remove ∧ keys.getLast? = some (.key "variables")
        let value := if removeVariables then Val.obj [] else parsed.value
        some (.edit serverUid parsed.path value)
      | _, _ => none
  else if d.type = .remove then
    match lookupIdx collection.servers index with
    | some serverUid =>
      if serverUid = "" then none
      else some (.del serverUid collection.uid)
    | none => none
  else if d.type = .create then
    match schemaModel d.value serverSchema with
    | some server => some (.add server collection.uid)
    | none => none
  else none

/-- The request lookup predicate used by diffToRequestPayload: the
request path equals the second path segment and the request method
equals the third, under JavaScript strict equality. -/
def requestCond (p1 : PathSeg) (method : Option PathSeg) (r : Request) :
    Bool :=
  segToVal p1 == Val.str r.path &&
    match method with
    | some m => segToVal m == Val.str r.method
    | none => false

/-- diffToRequestPayload from the source: fans a path rename out to
every request whose path equals the old value, fans a method rename out
to every request with the old method on the unchanged path, applies the
array tail push or pop rewrite for a CREATE or REMOVE ending in an
index, assembles and validates a whole new request for a CREATE
(destructuring the first entry of the value, which throws on an empty
object), deletes the located request for a bare REMOVE, and edits the
located request for a CHANGE with further segments. -/
def diffToRequestPayload (d : Difference) (collection : Collection)
    (requests : String → Option Request) :
    Except String (List RequestCmd) := do
  let p1 := (d.path.get? 1).getD .undefined
  let method := d.path.get? 2
  let keys := d.path.drop 3
  if p1 = .key "path" ∧ d.type = .change then
    let uids ← filterDeref collection.requests requests
      (fun r => Val.str r.path == d.oldValue)
    pure (uids.map (fun uid => .edit uid "path" d.value))
  else if method = some (.key "method") ∧ d.type = .change then
    let uids ← filterDeref collection.requests requests
      (fun r => Val.str r.method == d.oldValue &&
        segToVal p1 == Val.str r.path)
    pure (uids.map (fun uid => .edit uid "method" d.value))
  else if d.type ≠ .change ∧ isNumLast keys then
    let request ← findResource collection.requests requests
      (derefCond (requestCond p1 method))
    let parsed := parseDiff requestSchema { d with path := d.path.drop 3 }
    match request, parsed with
    | some req, some pr =>
      let oldValue ← spreadArr (getNestedValue (reqVal req) pr.pathMinusOne)
      let newValue :=
        if d.type = .create then oldValue ++ [pr.value]
        else if d.type = .remove then oldValue.dropLast
        else oldValue
      pure [.edit req.uid pr.pathMinusOne (.arr newValue)]
    | _, _ => pure []
  else if d.type = .create then
    let entries ← jsEntries d.value
    match entries with
    | [] =>
      .error "TypeError: undefined is not iterable"
    | (em, eo) :: _ =>
      let operation := if (method.map truthySeg).getD false then d.value
        else eo
      let newMethod : Val :=
        if (method.map truthySeg).getD false then segToVal (method.getD .undefined)
        else .str em
      let servers0 ← jsGetE operation "servers"
      let operationServers ← zparseThrow (.array serverSchema)
        (nullish servers0 (.arr []))
      let serverUids ←
        match operationServers with
        | .arr xs => xs.mapM (fun s => jsGetE s "uid")
        | _ => pure []
      let operationSecurity ← jsGetE operation "security"
      let parameters0 ← jsGetE operation "parameters"
      let baseFields :=
        match operation with
        | .obj fields => delKey fields "security"
        | _ => []
      let payload0 :=
        setKey (setKey (setKey (setKey baseFields
          "method" (if isHTTPMethod newMethod then newMethod
            else .str "get"))
          "path" (segToVal p1))
          "parameters" (nullish parameters0 (.arr [])))
          "servers" (.arr serverUids)
      let payload :=
        match operationSecurity with
        | .arr (s0 :: srest) =>
          let reshaped := (s0 :: srest).map (fun s =>
            match objKeys s with
            | [] => s
            | k :: _ =>
              .obj [(k, match s with
                | .obj fields => (lookupVal fields k).getD .undefined
                | _ => .undefined)])
          setKey payload0 "security" (.arr reshaped)
        | _ => payload0
      match schemaModel (.obj payload) requestSchema with
      | some request => pure [.add request collection.uid]
      | none => pure []
  else if d.type = .remove then
    let request ← findResource collection.requests requests
      (derefCond (requestCond p1 method))
    match request with
    | some req => pure [.del req collection.uid]
    | none => pure []
  else if d.type = .change then
    let request ← findResource collection.requests requests
      (derefCond (requestCond p1 method))
    let parsed := parseDiff requestSchema { d with path := keys }
    match request, parsed with
    | some req, some pr => pure [.edit req.uid pr.path pr.value]
    | _, _ => pure []
  else pure []

/-- The flow type of a scheme as the JavaScript optional chain
scheme?.flow?.type evaluates it. -/
def flowTypeVal (sch : SecurityScheme) : Val :=
  match sch.flow with
  | some f => .str f.type
  | none => .undefined

/-- diffToSecuritySchemePayload from the source: resolve the scheme by
primary key, falling back to a nameKey lookup through findResource; with
trailing segments narrow the flow union or the scheme union by the
current type, handle the OAuth2 scopes map directly without validation,
otherwise parse the remaining path and emit an edit (with flow prepended
to the path for a flow sub path); without trailing segments a REMOVE
deletes by uid and a CREATE validates the value with the throwing parse
and adds it. -/
def diffToSecuritySchemePayload (d : Difference) (collection : Collection)
    (securitySchemes : String → Option SecurityScheme) :
    Except String (Option SchemeCmd) := do
  let schemeName := (d.path.get? 2).getD .undefined
  let keys := d.path.drop 3
  let scheme ←
    match securitySchemes (segToKeyString schemeName) with
    | some s => pure (some s)
    | none =>
      findResource collection.securitySchemes securitySchemes
        (derefCond (fun s =>
          match schemeName with
          | .key nm => s.nameKey == nm
          | _ => false))
  if keys ≠ [] then
    match scheme with
    | none => pure none
    | some sch =>
      let flowsCase := keys.head? = some (.key "flows") ∧
        sch.type = "oauth2"
      let schema :=
        if flowsCase then
          narrowUnionSchema oasOauthFlowSchema "type" (flowTypeVal sch)
        else narrowUnionSchema securitySchemeSchema "type" (.str sch.type)
      let innerKeys := if flowsCase then keys.drop 2 else keys
      if innerKeys.head? = some (.key "scopes") ∧ sch.type = "oauth2" then
        let scopes ←
          match sch.flow with
          | some f => pure f.scopes
          | none => .error "TypeError: cannot read properties of undefined"
        let scopeKey := segToKeyString ((innerKeys.get? 1).getD .undefined)
        let scopes2 :=
          if d.type = .create ∨ d.type = .change then
            setKey scopes scopeKey d.value
          else delKey scopes scopeKey
        pure (some (.edit sch.uid "flow.scopes" (.obj scopes2)))
      else
        match schema with
        | none => pure none
        | some sc =>
          match parseDiff sc { d with path := innerKeys } with
          | none => pure none
          | some parsed =>
            let path :=
              if keys.head? = some (.key "flows") then
                String.intercalate "."
                  ("flow" :: innerKeys.map segToJoin)
              else parsed.path
            pure (some (.edit sch.uid path parsed.value))
  else if d.type = .remove then
    match scheme with
    | none => pure none
    | some sch => pure (some (.del sch.uid))
  else if d.type = .create then do
    let v ← zparseThrow securitySchemeSchema d.value
    pure (some (.add v collection.uid))
  else pure none

/-- A microdiff stand-in that reports no differences, used for concrete
evaluations. -/
def mdNil : Val → Val → List Difference := fun _ _ => []

/-! Helper lemmas. -/

/-- Boolean equality on values unfolds to the structural comparison. -/
@[simp] theorem beq_val_def (a b : Val) : (a == b) = valBeq a b := rfl

/-- unwrapSchema never returns an optional or default wrapper. -/
theorem isWrapper_unwrapSchema (s : Schema) :
    isWrapper (unwrapSchema s) = false := by
  induction s using unwrapSchema.induct with
  | case1 s ih => simpa [unwrapSchema] using ih
  | case2 d s ih => simpa [unwrapSchema] using ih
  | case3 s h1 h2 =>
    cases s <;> simp_all [unwrapSchema, isWrapper]

/-! Claim C5. -/

/-- Claim C5 counterexample: on the empty path traverseZodSchema returns
the schema unchanged, so it succeeds with an optional wrapper, contrary
to the claim that the result is never an optional or default wrapper
including for the empty path. -/
theorem traverse_empty_path_wrapper :
    traverseZodSchema (.optional .string) [] = some (.optional .string) ∧
      isWrapper (.optional .string) = true :=
  ⟨rfl, rfl⟩

/-- Claim C5 (amended): for every schema and every non-empty path,
whenever traverseZodSchema succeeds the returned schema is not an
optional or default wrapper, because wrappers are stripped before each
segment is consumed and the result is unwrapped once more after the
last segment. -/
theorem traverse_nonempty_not_wrapper :
    ∀ (p : List PathSeg) (s r : Schema), p ≠ [] →
      traverseZodSchema s p = some r → isWrapper r = false := by
  intro p
  induction p with
  | nil => intro s r hp; exact absurd rfl hp
  | cons k rest ih =>
    intro s r _ h
    simp only [traverseZodSchema] at h
    by_cases hA : isZodAny (unwrapSchema s) = true
    · rw [if_pos hA] at h
      cases h
      cases hu : unwrapSchema s <;> simp_all [isZodAny, isWrapper]
    · rw [if_neg hA] at h
      cases hs : traverseStep (unwrapSchema s) k with
      | none => rw [hs] at h; exact absurd h (by simp)
      | some nxt =>
        rw [hs] at h
        cases rest with
        | nil =>
          simp only [traverseZodSchema] at h
          cases h
          exact isWrapper_unwrapSchema _
        | cons k2 rest2 => exact ih _ _ (by simp) h

/-- Claim C5 witness: a concrete non-empty path through an optional
field resolves to the unwrapped string schema, which is not a wrapper. -/
theorem traverse_nonempty_not_wrapper_witness :
    traverseZodSchema (.obj [("a", .optional .string)]) [.key "a"] =
        some .string ∧
      isWrapper .string = false :=
  ⟨rfl, traverse_nonempty_not_wrapper [.key "a"]
    (.obj [("a", .optional .string)]) .string (by simp) rfl⟩

/-! Claim C6. -/

/-- Claim C6 counterexample: with a key that is missing from the table
and the dereferencing predicate shape every call site uses, findResource
throws a TypeError instead of returning not-found, so the claim that a
missing key yields not-found and that findResource never throws fails. -/
theorem findResource_missing_key_throws :
    findResource (T := Request) ["k"] (fun _ => none)
        (derefCond (fun r => r.path == "/pets")) =
      .error "TypeError: cannot read properties of undefined" ∧
      findResource (T := Request) ["k"] (fun _ => none)
        (derefCond (fun r => r.path == "/pets")) ≠ .ok none :=
  ⟨rfl, by simp [findResource, derefCond]⟩

/-- Claim C6 (amended): provided every key of the list is present in
the table, findResource scans the keys in order and returns the first
entity satisfying the predicate, returns not-found on the empty list or
when no entity satisfies it, and never throws; findResourceSpec states
that scan. -/
theorem findResource_all_present {T : Type} (arr : List String)
    (resources : String → Option T) (p : T → Bool)
    (h : ∀ uid ∈ arr, (resources uid).isSome) :
    findResource arr resources (derefCond p) =
      .ok (findResourceSpec arr resources p) := by
  induction arr with
  | nil => rfl
  | cons uid rest ih =>
    obtain ⟨r, hr⟩ := Option.isSome_iff_exists.mp (h uid (by simp))
    by_cases hp : p r
    · simp [findResource, findResourceSpec, hr, derefCond, hp]
    · simp only [findResource, findResourceSpec, hr, derefCond,
        hp, if_neg]
      simpa [hp] using ih (fun u hu => h u (List.mem_cons_of_mem _ hu))

/-- Claim C6 witness: a concrete two-key table in which the second
entity satisfies the predicate. -/
theorem findResource_all_present_witness :
    findResource (T := String) ["u1", "u2"]
        (fun s => if s == "u1" then some "a"
          else if s == "u2" then some "b" else none)
        (derefCond (fun s => s == "b")) =
      .ok (some "b") := by
  rw [findResource_all_present _ _ _ (by decide)]
  rfl

/-! Claim C9. -/

/-- The top-level loop of combineRenameDiffs leaves the input array in
its original state. -/
theorem combineTopGo_snd (md : Val → Val → List Difference) :
    ∀ l : List Difference, (combineTopGo md l).2 = l := by
  intro l
  induction l using combineTopGo.induct md with
  | case1 => simp [combineTopGo]
  | case2 c h => simp [combineTopGo, h]
  | case3 c h => simp [combineTopGo, h]
  | case4 c n rest h ih => simp [combineTopGo, h, ih]
  | case5 c n rest h1 h2 ih => simp [combineTopGo, h1, h2, ih]
  | case6 c n rest h1 h2 ih => simp [combineTopGo, h1, h2, ih]

/-- Claim C9 counterexample: called with a non-empty path prefix,
combineRenameDiffs overwrites the path of its input entry in place, so
after the call the input entry is no longer structurally equal to what
it was before. -/
theorem combineRename_mutates_input :
    combineRenameDiffsFinal mdNil
        [⟨.create, [.key "a"], .undefined, .str "v"⟩] [.key "p"] ≠
      [⟨.create, [.key "a"], .undefined, .str "v"⟩] := by
  simp [combineRenameDiffsFinal, combineNestedGo, prefixPath, mdNil]

/-- Claim C9 (amended): with the empty path prefix, which is how the
reconciliation pass invokes it, combineRenameDiffs leaves its input
diff list unmodified; every entry and its path array are unchanged. -/
theorem combineRename_top_input_unchanged
    (md : Val → Val → List Difference) (diff : List Difference) :
    combineRenameDiffsFinal md diff [] = diff := by
  simpa [combineRenameDiffsFinal] using combineTopGo_snd md diff

/-! Claim C10. -/

/-- Claim C10: a CREATE whose path stops at the path key with an empty
object value reaches the whole-operation branch, where destructuring
the first entry of Object.entries of the value throws instead of
returning an empty command list. -/
theorem requestPayload_create_empty_throws :
    diffToRequestPayload
        ⟨.create, [.key "paths", .key "/new"], .undefined, .obj []⟩
        ⟨"c", [], [], []⟩ (fun _ => none) =
      .error "TypeError: undefined is not iterable" := rfl

/-! Claim C1. -/

/-- Claim C1: the whole-scheme CREATE branch of
diffToSecuritySchemePayload calls the throwing zod parse, so an invalid
value makes the builder throw instead of silently emitting no command;
the failing input is a CREATE of the scheme named x whose value is the
number five. -/
theorem schemePayload_create_invalid_throws :
    diffToSecuritySchemePayload
        ⟨.create, [.key "components", .key "securitySchemes", .key "x"],
          .undefined, .num 5⟩
        ⟨"c", [], [], []⟩ (fun _ => none) =
      .error "ZodError" := by
  simp [diffToSecuritySchemePayload, findResource, zparseThrow,
    securitySchemeSchema, segToKeyString, zvalid, zvalidUnion,
    zvalidFields, valBeq]
  rfl

/-! Claim C4. -/

/-- Claim C4: validation soundness of parseDiff.  Whenever parseDiff
succeeds on a non-REMOVE entry, the path resolved through
traverseZodSchema exists and the returned value is the diff value
validated against that resolved schema; and parseDiff fails whenever
the path is unresolvable, or the value fails the non-throwing
validation on a non-REMOVE entry. -/
theorem parseDiff_sound (s : Schema) (d : Difference) :
    (∀ r : ParsedDiff, d.type ≠ .remove → parseDiff s d = some r →
      ∃ sh, traverseZodSchema s d.path = some sh ∧
        r.value = d.value ∧ zvalid sh d.value = true) ∧
    (traverseZodSchema s d.path = none → parseDiff s d = none) ∧
    (∀ sh, traverseZodSchema s d.path = some sh → d.type ≠ .remove →
      zvalid sh d.value = false → parseDiff s d = none) := by
  refine ⟨?_, ?_, ?_⟩
  · intro r hrem hp
    cases ht : traverseZodSchema s d.path with
    | none => simp [parseDiff, ht] at hp
    | some sh =>
      refine ⟨sh, rfl, ?_⟩
      simp only [parseDiff, ht, schemaModel] at hp
      rw [if_neg hrem] at hp
      by_cases hv : zvalid sh d.value = true
      · rw [if_pos hv] at hp
        by_cases hf : jsFalsy d.value = true
        · simp [hf] at hp
        · simp only [hf, Bool.false_eq_true, if_false, if_neg] at hp
          cases hp
          exact ⟨rfl, hv⟩
      · simp [hv] at hp
  · intro ht
    simp [parseDiff, ht]
  · intro sh ht hrem hv
    simp [parseDiff, ht, schemaModel, hrem, hv]

/-- Claim C4 witness: a change of the field a to a concrete string
parses successfully and the value validates against the resolved string
schema. -/
theorem parseDiff_sound_witness :
    ∃ sh,
      traverseZodSchema (.obj [("a", .string)]) [.key "a"] = some sh ∧
        (⟨"a", "", .str "x"⟩ : ParsedDiff).value = .str "x" ∧
        zvalid sh (.str "x") = true :=
  (parseDiff_sound (.obj [("a", .string)])
      ⟨.change, [.key "a"], .str "old", .str "x"⟩).1
    ⟨"a", "", .str "x"⟩ (by simp)
    (by
      simp [parseDiff, traverseZodSchema, schemaModel, zvalid, jsFalsy,
        joinPath, segToJoin, unwrapSchema, isZodAny, traverseStep,
        lookupFieldS]
      exact ⟨rfl, rfl⟩)

/-! Claim C7. -/

/-- The option scan of narrowUnionSchema is the first option matching
the variant test, in declaration order. -/
theorem findVariant_eq_find (opts : List Schema) (k : String) (v : Val) :
    findVariant opts k v = opts.find? (fun o => variantMatches o k v) := by
  induction opts with
  | nil => rfl
  | cons o rest ih =>
    by_cases h : variantMatches o k v <;>
      simp [findVariant, List.find?, h, ih]

/-- Claim C7: narrowUnionSchema unwraps the schema; on a plain or
discriminated union it returns the first option in declaration order
that is an object whose discriminator field is a literal equal to the
discriminator value (none when no option matches); on anything that is
not a union it returns not-found. -/
theorem narrowUnion_first_match (s : Schema) (k : String) (v : Val) :
    (∀ opts, unwrapSchema s = .union opts →
      narrowUnionSchema s k v =
        opts.find? (fun o => variantMatches o k v)) ∧
    (∀ dk opts, unwrapSchema s = .dunion dk opts →
      narrowUnionSchema s k v =
        opts.find? (fun o => variantMatches o k v)) ∧
    ((∀ opts, unwrapSchema s ≠ .union opts) →
      (∀ dk opts, unwrapSchema s ≠ .dunion dk opts) →
      narrowUnionSchema s k v = none) := by
  refine ⟨?_, ?_, ?_⟩
  · intro opts h
    simp [narrowUnionSchema, h, findVariant_eq_find]
  · intro dk opts h
    simp [narrowUnionSchema, h, findVariant_eq_find]
  · intro h1 h2
    unfold narrowUnionSchema
    cases hu : unwrapSchema s
    case union opts => exact absurd hu (h1 _)
    case dunion dk opts => exact absurd hu (h2 _ _)
    all_goals rfl

/-- Claim C7 witness: narrowing a concrete two-variant union by the
discriminator value of the second variant returns the second variant. -/
theorem narrowUnion_first_match_witness :
    narrowUnionSchema
        (.union [.obj [("type", .literal (.str "a"))],
          .obj [("type", .literal (.str "b"))]])
        "type" (.str "b") =
      some (.obj [("type", .literal (.str "b"))]) := by
  rw [(narrowUnion_first_match
      (.union [.obj [("type", .literal (.str "a"))],
        .obj [("type", .literal (.str "b"))]])
      "type" (.str "b")).1 _ rfl]
  simp [List.find?, variantMatches, lookupFieldS, valBeq]

/-! Claim C8. -/

/-- Claim C8: a REMOVE whose path ends at the variables field of a
server resolved at an index of the collection server list emits an edit
whose value is the empty object rather than the parsed absent value. -/
theorem serverPayload_remove_variables (i : Nat) (uid : String)
    (srv : Server) (collection : Collection)
    (servers : String → Option Server) (ov : Val)
    (hidx : collection.servers.get? i = some uid)
    (hsrv : servers uid = some srv) :
    diffToServerPayload
        ⟨.remove, [.key "servers", .idx i, .key "variables"], ov, .undefined⟩
        collection servers =
      some (.edit uid "variables" (.obj [])) := by
  simp only [diffToServerPayload, lookupIdx, List.get?_eq_getElem?]
  simp only [List.get?_eq_getElem?] at hidx
  simp [hidx, hsrv, parseDiff, traverseZodSchema, serverSchema,
    unwrapSchema, isZodAny, traverseStep, lookupFieldS, joinPath,
    segToJoin]
  rfl

/-- Claim C8 witness: concrete collection with one server at index
zero. -/
theorem serverPayload_remove_variables_witness :
    diffToServerPayload
        ⟨.remove, [.key "servers", .idx 0, .key "variables"],
          .obj [], .undefined⟩
        ⟨"c", [], ["s1"], []⟩
        (fun u => if u == "s1" then some ⟨"s1"⟩ else none) =
      some (.edit "s1" "variables" (.obj [])) :=
  serverPayload_remove_variables 0 "s1" ⟨"s1"⟩ ⟨"c", [], ["s1"], []⟩
    (fun u => if u == "s1" then some ⟨"s1"⟩ else none) (.obj [])
    (by rfl) (by rfl)

/-! Claims C2 and C3. -/

/-- The rename CHANGE entries of the source decompose into the key part
and the method part. -/
theorem renameChanges_eq (rm cr : Difference) :
    renameChanges rm cr = renameKeyPart rm cr ++ renameMethodPart rm cr :=
  rfl

/-- Every entry of the rename parts is a CHANGE entry. -/
theorem mem_renameParts_type (rm cr x : Difference)
    (hx : x ∈ renameKeyPart rm cr ++ renameMethodPart rm cr) :
    x.type = .change := by
  simp only [renameKeyPart, renameMethodPart, List.mem_append] at hx
  rcases hx with h | h <;> split at h <;> simp_all

/-- simplifyEntry either turns the entry into a CHANGE or leaves it
unchanged. -/
theorem simplifyEntry_type_value (c : Difference) :
    (simplifyEntry c).type = .change ∨ simplifyEntry c = c := by
  unfold simplifyEntry
  split
  · exact Or.inl rfl
  · split
    · exact Or.inl rfl
    · exact Or.inr rfl

/-- An entry emitted by the nested combining pass is either a CHANGE
entry or has the type and the value of some input entry. -/
theorem mem_combineNestedGo (pfx : List PathSeg) (l : List Difference) :
    ∀ x ∈ (combineNestedGo pfx l).1,
      x.type = .change ∨ ∃ e ∈ l, x.type = e.type ∧ x.value = e.value := by
  induction l using combineNestedGo.induct pfx with
  | case1 =>
    intro x hx
    simp [combineNestedGo] at hx
  | case2 c =>
    intro x hx
    simp only [combineNestedGo, List.mem_singleton] at hx
    subst hx
    rcases simplifyEntry_type_value (prefixPath pfx c) with hc | hc
    · exact Or.inl hc
    · exact Or.inr ⟨c, by simp, by rw [hc]; exact ⟨rfl, rfl⟩⟩
  | case3 c n rest c1 n1 hcond ih =>
    intro x hx
    simp only [combineNestedGo, if_pos hcond, List.mem_append] at hx
    rcases hx with h | h
    · exact Or.inl (mem_renameParts_type _ _ _ (renameChanges_eq _ _ ▸ h))
    · rcases ih x h with h2 | ⟨e, he, hty, hval⟩
      · exact Or.inl h2
      · exact Or.inr ⟨e, by simp [he], hty, hval⟩
  | case4 c n rest c1 n1 hcond ih =>
    intro x hx
    simp only [combineNestedGo, if_neg hcond, List.mem_cons] at hx
    rcases hx with h | h
    · subst h
      rcases simplifyEntry_type_value (prefixPath pfx c) with hc | hc
      · exact Or.inl hc
      · exact Or.inr ⟨c, by simp, by rw [hc]; exact ⟨rfl, rfl⟩⟩
    · rcases ih x h with h2 | ⟨e, he, hty, hval⟩
      · exact Or.inl h2
      · rcases List.mem_cons.mp he with he1 | he2
        · subst he1
          exact Or.inr ⟨n, by simp, hty, hval⟩
        · exact Or.inr ⟨e, by simp [he2], hty, hval⟩

/-- Claim C2: a REMOVE in the operations section immediately followed
by a CREATE is replaced by the key rename CHANGE entry when the path
keys differ, an additional method rename CHANGE entry when both method
sub keys are present and differ, and the recursively combined body
diff, after which processing continues with the remaining entries; the
consumed CREATE entry itself is not among the emitted rename or body
entries. -/
theorem combineRename_pair_rename (md : Val → Val → List Difference)
    (rm cr : Difference) (rest : List Difference)
    (h1 : rm.type = .remove) (h2 : cr.type = .create)
    (h3 : rm.path.head? = some (.key "paths"))
    (hv : ∀ e ∈ md rm.oldValue cr.value, e.value ≠ cr.value) :
    combineRenameDiffs md (rm :: cr :: rest) [] =
      renameKeyPart rm cr ++ renameMethodPart rm cr ++
        renameInnerPart md rm cr ++ combineRenameDiffs md rest [] ∧
    renameKeyPart rm cr =
      (if (rm.path.get? 1).getD .undefined ≠ (cr.path.get? 1).getD .undefined then
        [{ type := .change, path := [.key "paths", .key "path"],
           oldValue := segToVal ((rm.path.get? 1).getD .undefined),
           value := segToVal ((cr.path.get? 1).getD .undefined) }]
       else []) ∧
    cr ∉ renameKeyPart rm cr ++ renameMethodPart rm cr ++
      renameInnerPart md rm cr := by
  refine ⟨?_, rfl, ?_⟩
  · simp only [combineRenameDiffs, List.isEmpty_nil, if_pos]
    simp only [combineTopGo, h3, h1, h2, and_self, if_pos, reduceIte,
      ne_eq, not_true_eq_false, if_false]
    rw [renameChanges_eq]
    simp only [renameInnerPart, renameNestedPfx, combineRenameDiffs,
      List.cons_append, List.isEmpty_cons, Bool.false_eq_true,
      if_false, List.append_assoc]
  · intro hmem
    simp only [List.mem_append] at hmem
    rcases hmem with (hk | hm) | hi
    · have := mem_renameParts_type rm cr cr (by simp [hk])
      rw [this] at h2
      cases h2
    · have := mem_renameParts_type rm cr cr (by simp [hm])
      rw [this] at h2
      cases h2
    · simp only [renameInnerPart] at hi
      split at hi
      · simp at hi
      · simp only [combineRenameDiffs, renameNestedPfx,
          List.cons_append, List.isEmpty_cons, Bool.false_eq_true,
          if_false] at hi
        rcases mem_combineNestedGo _ _ cr hi with hc | ⟨e, he, _, hval⟩
        · rw [hc] at h2
          cases h2
        · exact hv e he hval.symm

/-- Claim C2 witness: a concrete pair renaming the path slash-a to
slash-b with no method segments combines to exactly one key rename
CHANGE entry. -/
theorem combineRename_pair_rename_witness :
    combineRenameDiffs mdNil
        [⟨.remove, [.key "paths", .key "/a"], .obj [], .undefined⟩,
         ⟨.create, [.key "paths", .key "/b"], .undefined, .obj []⟩] [] =
      [⟨.change, [.key "paths", .key "path"], .str "/a", .str "/b"⟩] := by
  have h := combineRename_pair_rename mdNil
    ⟨.remove, [.key "paths", .key "/a"], .obj [], .undefined⟩
    ⟨.create, [.key "paths", .key "/b"], .undefined, .obj []⟩ []
    rfl rfl rfl (by simp [mdNil])
  rw [h.1]
  simp [renameKeyPart, renameMethodPart, renameInnerPart, mdNil,
    combineRenameDiffs, combineTopGo, truthySeg, segToVal]

/-- Claim C3: when the old and new bodies of the rename pair are
structurally equal (so the external structural diff of the bodies is
empty), combining produces exactly the rename CHANGE entries followed
by the combination of the remaining entries and no body diff entries;
and with any non-empty prefix the combining pass never invokes the
structural diff function, so its result does not depend on it. -/
theorem combineRename_equal_bodies (md : Val → Val → List Difference)
    (rm cr : Difference) (rest : List Difference)
    (h1 : rm.type = .remove) (h2 : cr.type = .create)
    (h3 : rm.path.head? = some (.key "paths"))
    (hbody : rm.oldValue = cr.value)
    (hmd : md cr.value cr.value = []) :
    combineRenameDiffs md (rm :: cr :: rest) [] =
      renameKeyPart rm cr ++ renameMethodPart rm cr ++
        combineRenameDiffs md rest [] ∧
    (∀ (md2 : Val → Val → List Difference) (l : List Difference)
      (p : List PathSeg), p ≠ [] →
      combineRenameDiffs md l p = combineRenameDiffs md2 l p) := by
  constructor
  · simp only [combineRenameDiffs, List.isEmpty_nil, if_pos]
    simp only [combineTopGo, h3, h1, h2, and_self, if_pos, reduceIte,
      ne_eq, not_true_eq_false, if_false]
    rw [renameChanges_eq]
    rw [show md rm.oldValue cr.value = [] from hbody ▸ hmd]
    simp [List.append_assoc]
  · intro md2 l p hp
    have : p.isEmpty = false := by
      cases p
      · exact absurd rfl hp
      · rfl
    simp [combineRenameDiffs, this]

/-- Claim C3 witness: a concrete pair with equal bodies renaming both
the path and the method combines to exactly the two rename CHANGE
entries. -/
theorem combineRename_equal_bodies_witness :
    combineRenameDiffs mdNil
        [⟨.remove, [.key "paths", .key "/a", .key "get"],
          .obj [("x", .num 1)], .undefined⟩,
         ⟨.create, [.key "paths", .key "/b", .key "post"],
          .undefined, .obj [("x", .num 1)]⟩] [] =
      [⟨.change, [.key "paths", .key "path"], .str "/a", .str "/b"⟩,
       ⟨.change, [.key "paths", .key "/b", .key "method"],
        .str "get", .str "post"⟩] := by
  have h := combineRename_equal_bodies mdNil
    ⟨.remove, [.key "paths", .key "/a", .key "get"],
      .obj [("x", .num 1)], .undefined⟩
    ⟨.create, [.key "paths", .key "/b", .key "post"],
      .undefined, .obj [("x", .num 1)]⟩ []
    rfl rfl rfl rfl rfl
  rw [h.1]
  simp [renameKeyPart, renameMethodPart, mdNil, combineRenameDiffs,
    combineTopGo, truthySeg, segToVal]

end LiveSync
